import Mathlib

/-
Shallow embedding of the core computation pipeline of `src/app.py`
(an equal-weight portfolio back-testing dashboard).

Prices and returns are modelled as exact rationals (ℚ), trading dates as
naturals.  Pandas operations are translated line by line:

* `fetch_single_stock` (app.py:35-41): returns `(ticker, frame)` on success,
  `(ticker, None)` on a raised provider error, and — because the
  `if not df.empty:` branch has no `else` — a bare Python `None` when the
  provider returns an empty frame without raising.
* The merge loop (app.py:66-68) unpacks each result as `ticker, df`;
  a bare `None` element makes the loop raise `TypeError` (modelled as
  `PipeResult.crashTypeError`).
* `close_prices` column assignment (app.py:65-71): assigning a Series to a
  DataFrame aligns it on the existing index (the index of the first
  successful series); `dropna` then keeps the dates present in every series.
* `daily_returns` (app.py:78-80): `pct_change`, drop the first (NaN) row,
  then filter to dates ≥ the user start date.  There is no emptiness check
  after the filter; with an empty index, `cum_ret.index.min()` is NaT and
  `pd.date_range` (app.py:88) raises `ValueError`
  (modelled as `PipeResult.crashValueError`).
* `portfolio_ret`, `cum_ret`, `indiv_cum_ret`, `drawdown`, `final_perf`
  (app.py:82-85, 179) are the row mean, cumulative products, running-max
  drawdown and the descending sort of final per-ticker growth minus one.
-/

namespace App

abbrev Date := Nat
abbrev Ticker := String

/-- Default element used with `List.getD` on (date, value) series. -/
def dQ : Date × ℚ := (0, 0)

/-- Default element used with `List.getD` on (date, row) matrices. -/
def dRow : Date × List ℚ := (0, [])

/-- Close-price series of one ticker: (trading date, close) pairs, as
produced by `fetch_single_stock` from the date and close columns. -/
structure PriceSeries where
  rows : List (Date × ℚ)
deriving DecidableEq

/-- Date index of a price series. -/
def PriceSeries.dates (s : PriceSeries) : List Date := s.rows.map Prod.fst

/-- Lookup of the close price at a date (pandas index alignment: `none`
models a missing cell / NaN). -/
def PriceSeries.priceAt (s : PriceSeries) (d : Date) : Option ℚ :=
  (s.rows.find? (fun r => r.1 == d)).map Prod.snd

/-- Behaviour of the external provider (`ak.stock_zh_a_hist`) for one call:
it either raises, or returns a (possibly empty) frame of rows. -/
inductive ProviderResponse
  | error
  | data (rows : List (Date × ℚ))
deriving DecidableEq

/-- Embeds `fetch_single_stock` (app.py:35-41).  On a raised error the `except`
branch returns `(ticker, None)`; on a non-empty frame it returns the
(ticker, series) pair; on an empty frame the function falls off the end and
returns a bare Python `None` — modelled as the outer `none`. -/
def fetch_single_stock (t : Ticker) (resp : ProviderResponse) :
    Option (Ticker × Option PriceSeries) :=
  match resp with
  | .error => some (t, none)
  | .data rows => if rows.isEmpty then none else some (t, some ⟨rows⟩)

/-- The merge loop `for ticker, df in results:` (app.py:66-68).  A bare
`None` element cannot be unpacked and raises `TypeError`, aborting the
whole batch: modelled as the outer `none`.  A `(ticker, None)` pair is
skipped; a `(ticker, series)` pair contributes a column. -/
def mergeResults :
    List (Option (Ticker × Option PriceSeries)) →
      Option (List (Ticker × PriceSeries))
  | [] => some []
  | none :: _ => none
  | some (t, some s) :: rest => (mergeResults rest).map (fun l => (t, s) :: l)
  | some (_, none) :: rest => mergeResults rest

/-- A date-aligned table: tickers as columns, rows keyed by date. -/
structure PriceMatrix where
  tickers : List Ticker
  rows : List (Date × List ℚ)
deriving DecidableEq

/-- The date index (row keys) of a matrix. -/
def PriceMatrix.dates (M : PriceMatrix) : List Date := M.rows.map Prod.fst

/-- Embeds the `close_prices` construction plus `dropna` (app.py:65-71).  Column
assignment to the initially empty DataFrame fixes the index to that of the
first successful series; later columns are aligned to it, and `dropna`
then keeps exactly the dates present in every series (strict
intersection). -/
def close_prices : List (Ticker × PriceSeries) → PriceMatrix
  | [] => ⟨[], []⟩
  | p0 :: rest =>
      ⟨(p0 :: rest).map Prod.fst,
        (p0.2.dates.filter
            (fun d => (p0 :: rest).all (fun p => decide (d ∈ p.2.dates)))).map
          (fun d => (d, (p0 :: rest).map (fun p => (p.2.priceAt d).getD 0)))⟩

/-- Per-column simple percentage change, previous row in `prev`
(`pct_change` body). -/
def pct_go (prev : List ℚ) : List (Date × List ℚ) → List (Date × List ℚ)
  | [] => []
  | (d, p) :: rest =>
      (d, List.zipWith (fun a b => (b - a) / a) prev p) :: pct_go p rest

/-- Embeds `close_prices.pct_change().dropna()` (app.py:78): the first row becomes
NaN and is dropped; row `t` holds `(price[t] - price[t-1]) / price[t-1]`
per column. -/
def pct_rows : List (Date × List ℚ) → List (Date × List ℚ)
  | [] => []
  | (_, p0) :: rest => pct_go p0 rest

/-- Embeds `daily_returns` (app.py:78-80): percentage change, drop the first row,
then keep only rows with date ≥ the user start date. -/
def daily_returns (M : PriceMatrix) (userStart : Date) : PriceMatrix :=
  ⟨M.tickers, (pct_rows M.rows).filter (fun r => decide (userStart ≤ r.1))⟩

/-- Embeds `portfolio_ret = daily_returns.mean(axis=1)` (app.py:82): per date, the
unweighted arithmetic mean of the row. -/
def portfolio_ret (rows : List (Date × List ℚ)) : List (Date × ℚ) :=
  rows.map (fun r => (r.1, r.2.sum / (r.2.length : ℚ)))

/-- Running product accumulator for `(1 + series).cumprod()`. -/
def cum_ret_go (acc : ℚ) : List (Date × ℚ) → List (Date × ℚ)
  | [] => []
  | (d, r) :: rest => (d, acc * (1 + r)) :: cum_ret_go (acc * (1 + r)) rest

/-- Embeds `cum_ret = (1 + portfolio_ret).cumprod()` (app.py:83). -/
def cum_ret (l : List (Date × ℚ)) : List (Date × ℚ) := cum_ret_go 1 l

/-- Per-column running product accumulator for
`(1 + daily_returns).cumprod()`. -/
def indiv_go (acc : List ℚ) : List (Date × List ℚ) → List (Date × List ℚ)
  | [] => []
  | (d, xs) :: rest =>
      (d, List.zipWith (fun a x => a * (1 + x)) acc xs) ::
        indiv_go (List.zipWith (fun a x => a * (1 + x)) acc xs) rest

/-- Embeds `indiv_cum_ret = (1 + daily_returns).cumprod()` (app.py:84), one
cumulative-growth column per ticker (`n` = number of columns). -/
def indiv_cum_ret (n : Nat) (rows : List (Date × List ℚ)) :
    List (Date × List ℚ) :=
  indiv_go (List.replicate n 1) rows

/-- Running maximum, seeded with `m` (`cummax` body). -/
def cummaxGo (m : ℚ) : List (Date × ℚ) → List (Date × ℚ)
  | [] => []
  | (d, x) :: rest => (d, max m x) :: cummaxGo (max m x) rest

/-- Embeds `cum_ret.cummax()` (app.py:85): the running maximum of the series. -/
def cummax : List (Date × ℚ) → List (Date × ℚ)
  | [] => []
  | (d, x) :: rest => cummaxGo x ((d, x) :: rest)

/-- Embeds `drawdown = (cum_ret - cum_ret.cummax()) / cum_ret.cummax()`
(app.py:85), elementwise over the shared index. -/
def drawdown (l : List (Date × ℚ)) : List (Date × ℚ) :=
  List.zipWith (fun p q => (p.1, (p.2 - q.2) / q.2)) l (cummax l)

/-- Descending insertion by value; an element moves ahead only of strictly
smaller values, so equal values keep their input order. -/
def insertDesc (p : Ticker × ℚ) : List (Ticker × ℚ) → List (Ticker × ℚ)
  | [] => [p]
  | q :: rest => if q.2 < p.2 then p :: q :: rest else q :: insertDesc p rest

/-- Deterministic descending sort by value (`sort_values(ascending=False)`
on app.py:179). -/
def sortDesc : List (Ticker × ℚ) → List (Ticker × ℚ)
  | [] => []
  | p :: rest => insertDesc p (sortDesc rest)

/-- Embeds `final_perf = (indiv_cum_ret.iloc[-1] - 1).sort_values(ascending=False)`
(app.py:179): last row of the per-ticker growth table, minus one, sorted
descending by value. -/
def final_perf (tickers : List Ticker) (indiv : List (Date × List ℚ)) :
    List (Ticker × ℚ) :=
  match indiv.getLast? with
  | none => []
  | some (_, xs) => sortDesc (tickers.zip (xs.map (fun x => x - 1)))

/-- Everything handed to the rendering layer on a successful run. -/
structure Output where
  tickers : List Ticker
  returnsM : List (Date × List ℚ)
  portfolioS : List (Date × ℚ)
  growthS : List (Date × ℚ)
  indivS : List (Date × List ℚ)
  drawdownS : List (Date × ℚ)
  ranking : List (Ticker × ℚ)
deriving DecidableEq

/-- Possible outcomes of one button press (app.py:49-184):
`crashTypeError` = unpacking a bare `None` in the merge loop (app.py:66);
`insufficientData` = the `close_prices.empty` guard, `st.error` + `st.stop`
(app.py:73-75); `crashValueError` = `pd.date_range` on a NaT bound when the
filtered return matrix is empty (app.py:88); `rendered` = charts drawn. -/
inductive PipeResult
  | crashTypeError
  | insufficientData
  | crashValueError
  | rendered (out : Output)
deriving DecidableEq

/-- The whole pipeline for one batch: concurrent fetch (order-preserving
`executor.map`, app.py:61-62), merge, strict-intersection alignment, the
empty guard, returns, aggregates, and either a crash in chart preparation
or a rendered result. -/
def runPipeline (tickers : List Ticker)
    (provider : Ticker → ProviderResponse) (userStart : Date) : PipeResult :=
  match mergeResults (tickers.map (fun t => fetch_single_stock t (provider t))) with
  | none => .crashTypeError
  | some pairs =>
      let cp := close_prices pairs
      if cp.rows.isEmpty then .insufficientData
      else
        let dr := daily_returns cp userStart
        let pr := portfolio_ret dr.rows
        let cr := cum_ret pr
        let icr := indiv_cum_ret cp.tickers.length dr.rows
        if cr.isEmpty then .crashValueError
        else .rendered ⟨cp.tickers, dr.rows, pr, cr, icr, drawdown cr,
          final_perf cp.tickers icr⟩

/-- The column set actually rendered, when a chart was rendered at all. -/
def PipeResult.renderedTickers : PipeResult → Option (List Ticker)
  | .rendered out => some out.tickers
  | _ => none

end App

namespace App

/-! ### Shape and evaluation lemmas for the pipeline stages -/

theorem pct_go_length (prev : List ℚ) (l : List (Date × List ℚ)) :
    (pct_go prev l).length = l.length := by
  induction l generalizing prev with
  | nil => rfl
  | cons hd tl ih => cases hd with | mk d p => simp [pct_go, ih]

theorem pct_rows_length (rows : List (Date × List ℚ)) :
    (pct_rows rows).length = rows.length - 1 := by
  cases rows with
  | nil => rfl
  | cons hd tl => cases hd with | mk d p => simp [pct_rows, pct_go_length]

theorem pct_rows_getD (rows : List (Date × List ℚ)) (t : Nat)
    (ht : t + 1 < rows.length) :
    (pct_rows rows).getD t dRow =
      ((rows.getD (t + 1) dRow).1,
        List.zipWith (fun a b => (b - a) / a)
          (rows.getD t dRow).2 (rows.getD (t + 1) dRow).2) := by
  induction rows generalizing t with
  | nil => simp at ht
  | cons hd tl ih =>
    cases hd with | mk d0 p0 =>
    cases tl with
    | nil => simp at ht
    | cons hd1 tl1 =>
      cases hd1 with | mk d1 p1 =>
      cases t with
      | zero => rfl
      | succ t =>
        have h2 : t + 1 < ((d1, p1) :: tl1).length := Nat.lt_of_succ_lt_succ ht
        simpa [pct_rows, pct_go] using ih t h2

theorem sum_map_div (xs : List ℚ) (c : ℚ) :
    (xs.map (fun x => x / c)).sum = xs.sum / c := by
  induction xs with
  | nil => simp
  | cons hd tl ih => simp [ih, add_div]

theorem portfolio_ret_getD (rows : List (Date × List ℚ)) (t : Nat)
    (ht : t < rows.length) :
    (portfolio_ret rows).getD t dQ =
      ((rows.getD t dRow).1,
        (rows.getD t dRow).2.sum / ((rows.getD t dRow).2.length : ℚ)) := by
  have hlen : t < (portfolio_ret rows).length := by
    simpa [portfolio_ret] using ht
  rw [List.getD_eq_getElem _ _ hlen, List.getD_eq_getElem _ _ ht]
  simp [portfolio_ret]

theorem cum_ret_go_length (acc : ℚ) (l : List (Date × ℚ)) :
    (cum_ret_go acc l).length = l.length := by
  induction l generalizing acc with
  | nil => rfl
  | cons hd tl ih => cases hd with | mk d r => simp [cum_ret_go, ih]

theorem cum_ret_go_map_fst (acc : ℚ) (l : List (Date × ℚ)) :
    (cum_ret_go acc l).map Prod.fst = l.map Prod.fst := by
  induction l generalizing acc with
  | nil => rfl
  | cons hd tl ih => cases hd with | mk d r => simp [cum_ret_go, ih]

theorem cum_ret_go_getD (l : List (Date × ℚ)) :
    ∀ (acc : ℚ) (t : Nat), t < l.length →
      (cum_ret_go acc l).getD t dQ =
        ((l.getD t dQ).1, acc * ((l.take (t + 1)).map (fun p => 1 + p.2)).prod) := by
  induction l with
  | nil => intro acc t ht; simp at ht
  | cons hd tl ih =>
    intro acc t ht
    cases hd with | mk d r =>
    cases t with
    | zero => simp [cum_ret_go]
    | succ t =>
      have ht2 : t < tl.length := Nat.lt_of_succ_lt_succ ht
      simp only [cum_ret_go, List.getD_cons_succ]
      rw [ih (acc * (1 + r)) t ht2]
      simp [List.take_succ_cons, mul_assoc]

theorem cum_ret_getD_val (rs : List (Date × ℚ)) (t : Nat) (ht : t < rs.length) :
    ((cum_ret rs).getD t dQ).2 = ((rs.take (t + 1)).map (fun p => 1 + p.2)).prod := by
  rw [cum_ret, cum_ret_go_getD rs 1 t ht]
  simp

theorem cum_ret_go_pos (rs : List (Date × ℚ)) :
    ∀ acc : ℚ, 0 < acc → (∀ p ∈ rs, -1 < p.2) →
      ∀ p ∈ cum_ret_go acc rs, 0 < p.2 := by
  induction rs with
  | nil => intro acc hacc hr p hp; simp [cum_ret_go] at hp
  | cons hd tl ih =>
    intro acc hacc hr p hp
    cases hd with | mk d r =>
    have hfac : (0:ℚ) < 1 + r := by
      have := hr (d, r) (List.mem_cons_self _ _)
      linarith
    rcases List.mem_cons.mp hp with rfl | hp2
    · exact mul_pos hacc hfac
    · exact ih (acc * (1 + r)) (mul_pos hacc hfac)
        (fun q hq => hr q (List.mem_cons_of_mem _ hq)) p hp2

theorem cum_ret_pos (rs : List (Date × ℚ)) (h : ∀ p ∈ rs, -1 < p.2) :
    ∀ p ∈ cum_ret rs, 0 < p.2 :=
  cum_ret_go_pos rs 1 one_pos h

theorem indiv_go_length (acc : List ℚ) (l : List (Date × List ℚ)) :
    (indiv_go acc l).length = l.length := by
  induction l generalizing acc with
  | nil => rfl
  | cons hd tl ih => cases hd with | mk d xs => simp [indiv_go, ih]

theorem indiv_go_map_fst (acc : List ℚ) (l : List (Date × List ℚ)) :
    (indiv_go acc l).map Prod.fst = l.map Prod.fst := by
  induction l generalizing acc with
  | nil => rfl
  | cons hd tl ih => cases hd with | mk d xs => simp [indiv_go, ih]

end App

namespace App

theorem cummaxGo_length (m : ℚ) (l : List (Date × ℚ)) :
    (cummaxGo m l).length = l.length := by
  induction l generalizing m with
  | nil => rfl
  | cons hd tl ih => cases hd with | mk d x => simp [cummaxGo, ih]

theorem le_cummaxGo_self (l : List (Date × ℚ)) :
    ∀ (m : ℚ) (t : Nat), t < l.length →
      (l.getD t dQ).2 ≤ ((cummaxGo m l).getD t dQ).2 := by
  induction l with
  | nil => intro m t ht; simp at ht
  | cons hd tl ih =>
    intro m t ht
    cases hd with | mk d x =>
    cases t with
    | zero => simp [cummaxGo, le_max_right]
    | succ t =>
      have ht2 : t < tl.length := Nat.lt_of_succ_lt_succ ht
      simpa only [cummaxGo, List.getD_cons_succ] using ih (max m x) t ht2

theorem le_cummaxGo_seed (l : List (Date × ℚ)) :
    ∀ (m : ℚ) (t : Nat), t < l.length →
      m ≤ ((cummaxGo m l).getD t dQ).2 := by
  induction l with
  | nil => intro m t ht; simp at ht
  | cons hd tl ih =>
    intro m t ht
    cases hd with | mk d x =>
    cases t with
    | zero => simp [cummaxGo, le_max_left]
    | succ t =>
      have ht2 : t < tl.length := Nat.lt_of_succ_lt_succ ht
      have h1 : max m x ≤ ((cummaxGo (max m x) tl).getD t dQ).2 :=
        ih (max m x) t ht2
      have h2 : m ≤ max m x := le_max_left m x
      simpa [cummaxGo] using le_trans h2 h1

theorem cummaxGo_mono (l : List (Date × ℚ)) :
    ∀ (m : ℚ) (i t : Nat), i ≤ t → t < l.length →
      ((cummaxGo m l).getD i dQ).2 ≤ ((cummaxGo m l).getD t dQ).2 := by
  induction l with
  | nil => intro m i t hit ht; simp at ht
  | cons hd tl ih =>
    intro m i t hit ht
    cases hd with | mk d x =>
    cases i with
    | zero =>
      cases t with
      | zero => exact le_refl _
      | succ t =>
        have ht2 : t < tl.length := Nat.lt_of_succ_lt_succ ht
        simpa [cummaxGo] using le_cummaxGo_seed tl (max m x) t ht2
    | succ i =>
      cases t with
      | zero => exact absurd hit (by omega)
      | succ t =>
        have ht2 : t < tl.length := Nat.lt_of_succ_lt_succ ht
        simpa [cummaxGo] using
          ih (max m x) i t (Nat.le_of_succ_le_succ hit) ht2

theorem cummaxGo_attained (l : List (Date × ℚ)) :
    ∀ (m : ℚ) (t : Nat), t < l.length →
      ((cummaxGo m l).getD t dQ).2 = m ∨
        ∃ i, i ≤ t ∧ ((cummaxGo m l).getD t dQ).2 = (l.getD i dQ).2 := by
  induction l with
  | nil => intro m t ht; simp at ht
  | cons hd tl ih =>
    intro m t ht
    cases hd with | mk d x =>
    cases t with
    | zero =>
      rcases max_choice m x with h | h
      · exact Or.inl (by simpa [cummaxGo] using h)
      · exact Or.inr ⟨0, le_refl 0, by simpa [cummaxGo] using h⟩
    | succ t =>
      have ht2 : t < tl.length := Nat.lt_of_succ_lt_succ ht
      rcases ih (max m x) t ht2 with h | ⟨i, hi, h⟩
      · rcases max_choice m x with h2 | h2
        · exact Or.inl (by simp only [cummaxGo, List.getD_cons_succ]; rw [h, h2])
        · exact Or.inr ⟨0, Nat.zero_le _,
            by simp only [cummaxGo, List.getD_cons_succ, List.getD_cons_zero]; rw [h, h2]⟩
      · exact Or.inr ⟨i + 1, Nat.succ_le_succ hi,
          by simpa only [cummaxGo, List.getD_cons_succ] using h⟩

theorem cummaxGo_le (l : List (Date × ℚ)) (m c : ℚ) (t : Nat)
    (ht : t < l.length) (hm : m ≤ c)
    (h : ∀ i, i ≤ t → (l.getD i dQ).2 ≤ c) :
    ((cummaxGo m l).getD t dQ).2 ≤ c := by
  rcases cummaxGo_attained l m t ht with heq | ⟨i, hi, heq⟩
  · rw [heq]; exact hm
  · rw [heq]; exact h i hi

theorem cummax_length (l : List (Date × ℚ)) : (cummax l).length = l.length := by
  cases l with
  | nil => rfl
  | cons hd tl => cases hd with | mk d x => simp [cummax, cummaxGo_length]

theorem le_cummax_self (l : List (Date × ℚ)) (t : Nat) (ht : t < l.length) :
    (l.getD t dQ).2 ≤ ((cummax l).getD t dQ).2 := by
  cases l with
  | nil => simp at ht
  | cons hd tl => cases hd with | mk d x => exact le_cummaxGo_self _ x t ht

theorem le_cummax_all (l : List (Date × ℚ)) (i t : Nat) (hit : i ≤ t)
    (ht : t < l.length) :
    (l.getD i dQ).2 ≤ ((cummax l).getD t dQ).2 := by
  have h1 : (l.getD i dQ).2 ≤ ((cummax l).getD i dQ).2 :=
    le_cummax_self l i (lt_of_le_of_lt hit ht)
  have h2 : ((cummax l).getD i dQ).2 ≤ ((cummax l).getD t dQ).2 := by
    cases l with
    | nil => simp at ht
    | cons hd tl => cases hd with | mk d x => exact cummaxGo_mono _ x i t hit ht
  exact le_trans h1 h2

theorem cummax_pos (l : List (Date × ℚ)) (hpos : ∀ p ∈ l, 0 < p.2)
    (t : Nat) (ht : t < l.length) :
    0 < ((cummax l).getD t dQ).2 := by
  cases l with
  | nil => simp at ht
  | cons hd tl =>
    cases hd with | mk d x =>
    rcases cummaxGo_attained ((d, x) :: tl) x t ht with heq | ⟨i, hi, heq⟩
    · rw [cummax, heq]
      exact hpos (d, x) (List.mem_cons_self _ _)
    · rw [cummax, heq]
      have hmem : ((d, x) :: tl).getD i dQ ∈ (d, x) :: tl := by
        have hilen : i < ((d, x) :: tl).length := lt_of_le_of_lt hi ht
        rw [List.getD_eq_getElem _ _ hilen]
        exact List.getElem_mem hilen
      exact hpos _ hmem

theorem cummax_le (l : List (Date × ℚ)) (c : ℚ) (t : Nat) (ht : t < l.length)
    (h : ∀ i, i ≤ t → (l.getD i dQ).2 ≤ c) :
    ((cummax l).getD t dQ).2 ≤ c := by
  cases l with
  | nil => simp at ht
  | cons hd tl =>
    cases hd with | mk d x =>
    have hm : x ≤ c := by simpa using h 0 (Nat.zero_le t)
    exact cummaxGo_le _ x c t ht hm h

theorem drawdown_length (l : List (Date × ℚ)) :
    (drawdown l).length = l.length := by
  simp [drawdown, List.length_zipWith, cummax_length]

theorem drawdown_getD (l : List (Date × ℚ)) (t : Nat) (ht : t < l.length) :
    (drawdown l).getD t dQ =
      ((l.getD t dQ).1,
        ((l.getD t dQ).2 - ((cummax l).getD t dQ).2) / ((cummax l).getD t dQ).2) := by
  have h1 : t < (drawdown l).length := by rw [drawdown_length]; exact ht
  have h2 : t < (cummax l).length := by rw [cummax_length]; exact ht
  rw [List.getD_eq_getElem _ _ h1, List.getD_eq_getElem _ _ ht,
    List.getD_eq_getElem _ _ h2]
  simp [drawdown]

end App

namespace App

theorem drawdown_invariant (l : List (Date × ℚ)) (hpos : ∀ p ∈ l, 0 < p.2)
    (t : Nat) (ht : t < l.length) :
    ((drawdown l).getD t dQ).2 ≤ 0 ∧
      (((drawdown l).getD t dQ).2 = 0 ↔
        ∀ i, i ≤ t → (l.getD i dQ).2 ≤ (l.getD t dQ).2) := by
  have hM : 0 < ((cummax l).getD t dQ).2 := cummax_pos l hpos t ht
  have hle : (l.getD t dQ).2 ≤ ((cummax l).getD t dQ).2 := le_cummax_self l t ht
  rw [drawdown_getD l t ht]
  refine ⟨?_, ?_, ?_⟩
  · have h0 : (l.getD t dQ).2 - ((cummax l).getD t dQ).2 ≤ 0 := sub_nonpos.mpr hle
    exact div_nonpos_of_nonpos_of_nonneg h0 hM.le
  · intro h
    have hsub : (l.getD t dQ).2 - ((cummax l).getD t dQ).2 = 0 := by
      rcases div_eq_zero_iff.mp h with h1 | h1
      · exact h1
      · exact absurd h1 hM.ne'
    have hgm : (l.getD t dQ).2 = ((cummax l).getD t dQ).2 := sub_eq_zero.mp hsub
    intro i hi
    calc (l.getD i dQ).2 ≤ ((cummax l).getD t dQ).2 := le_cummax_all l i t hi ht
      _ = (l.getD t dQ).2 := hgm.symm
  · intro h
    have h2 : ((cummax l).getD t dQ).2 ≤ (l.getD t dQ).2 := cummax_le l _ t ht h
    have hgm : (l.getD t dQ).2 = ((cummax l).getD t dQ).2 := le_antisymm hle h2
    rw [hgm, sub_self, zero_div]

theorem insertDesc_perm (p : Ticker × ℚ) (l : List (Ticker × ℚ)) :
    (insertDesc p l).Perm (p :: l) := by
  induction l with
  | nil => exact List.Perm.refl _
  | cons q rest ih =>
    by_cases h : q.2 < p.2
    · simp [insertDesc, h]
    · simp only [insertDesc, if_neg h]
      exact (ih.cons q).trans (List.Perm.swap p q rest)

theorem sortDesc_perm (l : List (Ticker × ℚ)) : (sortDesc l).Perm l := by
  induction l with
  | nil => exact List.Perm.refl _
  | cons p rest ih => exact (insertDesc_perm p (sortDesc rest)).trans (ih.cons p)

theorem mem_insertDesc (p x : Ticker × ℚ) (l : List (Ticker × ℚ)) :
    x ∈ insertDesc p l ↔ x = p ∨ x ∈ l := by
  rw [(insertDesc_perm p l).mem_iff]
  simp

theorem insertDesc_pairwise (p : Ticker × ℚ) (l : List (Ticker × ℚ))
    (h : List.Pairwise (fun a b => b.2 ≤ a.2) l) :
    List.Pairwise (fun a b => b.2 ≤ a.2) (insertDesc p l) := by
  induction l with
  | nil => simp [insertDesc]
  | cons q rest ih =>
    rcases List.pairwise_cons.mp h with ⟨hq, hrest⟩
    by_cases hlt : q.2 < p.2
    · simp only [insertDesc, if_pos hlt]
      refine List.pairwise_cons.mpr ⟨?_, h⟩
      intro a ha
      rcases List.mem_cons.mp ha with rfl | ha2
      · exact hlt.le
      · exact le_trans (hq a ha2) hlt.le
    · simp only [insertDesc, if_neg hlt]
      refine List.pairwise_cons.mpr ⟨?_, ih hrest⟩
      intro a ha
      rcases (mem_insertDesc p a rest).mp ha with rfl | ha2
      · exact le_of_not_lt hlt
      · exact hq a ha2

theorem sortDesc_pairwise (l : List (Ticker × ℚ)) :
    List.Pairwise (fun a b => b.2 ≤ a.2) (sortDesc l) := by
  induction l with
  | nil => simp [sortDesc]
  | cons p rest ih => exact insertDesc_pairwise p (sortDesc rest) ih

theorem priceAt_isSome (s : PriceSeries) (d : Date) (hd : d ∈ s.dates) :
    (s.priceAt d).isSome = true := by
  rcases List.mem_map.mp hd with ⟨r, hr, hrd⟩
  have hfind : (s.rows.find? (fun r2 => r2.1 == d)).isSome = true :=
    List.find?_isSome.mpr ⟨r, hr, by simp [hrd]⟩
  simpa [PriceSeries.priceAt] using hfind

theorem zipWith_keep_fst (g : (Date × ℚ) → (Date × ℚ) → ℚ)
    (l m : List (Date × ℚ)) (h : l.length ≤ m.length) :
    (List.zipWith (fun p q => (p.1, g p q)) l m).map Prod.fst = l.map Prod.fst := by
  induction l generalizing m with
  | nil => simp
  | cons hd tl ih =>
    cases m with
    | nil => simp at h
    | cons hm tm => simp [ih tm (by simpa using h)]

end App

namespace App

/-- C1: the spec demands a `NoDataInRange` failure when clipping to
`userStartDate` empties the ReturnMatrix, with no chart and no crash.  The
code has no such check: with prices only on dates 1–3 and a user start date
of 10 (after the last data point), every downstream series is empty and the
chart-preparation step (`pd.date_range` on a NaT bound, app.py:88) raises an
uncaught `ValueError` instead of reporting `NoDataInRange`. -/
theorem C1_range_clip_crashes :
    runPipeline ["X"] (fun _ => .data [(1, 10), (2, 11), (3, 12)]) 10 =
      .crashValueError := by
  decide

/-- C2: the spec says a per-ticker provider error or empty result is
isolated and must not abort the batch.  A raised provider error is indeed
isolated (second conjunct: ticker B errors, the chart still renders with
only column A).  But an empty result makes `fetch_single_stock` return a
bare `None` (the `if not df.empty:` branch has no `else`, app.py:38-41),
and the merge loop `for ticker, df in results:` (app.py:66) crashes with
`TypeError` unpacking it, aborting the whole batch (first conjunct). -/
theorem C2_empty_result_crashes :
    runPipeline ["A", "B"]
        (fun t => if t = "B" then .data [] else .data [(1, 5), (2, 6)]) 1 =
      .crashTypeError ∧
    (runPipeline ["A", "B"]
        (fun t => if t = "B" then .error else .data [(1, 5), (2, 6)])
        1).renderedTickers = some ["A"] := by
  constructor <;> decide

/-- C3: when the successfully fetched series share no dates (here: two
series with disjoint date sets), the strictly intersected `close_prices`
table is empty, and the pipeline stops at the `close_prices.empty` guard
(app.py:73-75) — the `InsufficientData` failure — rendering nothing. -/
theorem C3_empty_intersection (tickers : List Ticker)
    (provider : Ticker → ProviderResponse) (userStart : Date)
    (pairs : List (Ticker × PriceSeries))
    (hm : mergeResults (tickers.map (fun t => fetch_single_stock t (provider t))) =
      some pairs)
    (p q : Ticker × PriceSeries) (hp : p ∈ pairs) (hq : q ∈ pairs)
    (hdisj : ∀ d, d ∈ p.2.dates → d ∉ q.2.dates) :
    runPipeline tickers provider userStart = .insufficientData := by
  have hrows : (close_prices pairs).rows = [] := by
    cases pairs with
    | nil => rfl
    | cons p0 rest =>
      have hkeep : p0.2.dates.filter
          (fun d => (p0 :: rest).all (fun pr => decide (d ∈ pr.2.dates))) = [] := by
        rw [List.filter_eq_nil_iff]
        intro d hd hall
        rw [List.all_eq_true] at hall
        simp only [decide_eq_true_eq] at hall
        exact hdisj d (hall p hp) (hall q hq)
      show (p0.2.dates.filter
          (fun d => (p0 :: rest).all (fun pr => decide (d ∈ pr.2.dates)))).map
        (fun d => (d, (p0 :: rest).map (fun pr => (pr.2.priceAt d).getD 0))) = []
      rw [hkeep]
      rfl
  unfold runPipeline
  rw [hm]
  simp [hrows]

theorem C3_empty_intersection_witness :
    runPipeline ["A", "B"]
        (fun t => if t = "B" then .data [(2, 7)] else .data [(1, 5)]) 0 =
      .insufficientData :=
  C3_empty_intersection ["A", "B"]
    (fun t => if t = "B" then .data [(2, 7)] else .data [(1, 5)]) 0
    [("A", ⟨[(1, 5)]⟩), ("B", ⟨[(2, 7)]⟩)] (by decide)
    ("A", ⟨[(1, 5)]⟩) ("B", ⟨[(2, 7)]⟩) (by decide) (by decide)
    (by intro d hd; simp [PriceSeries.dates] at hd; subst hd; decide)

/-- C4: for a non-empty family of fetched price series, the date (row) set
of the aligned `close_prices` matrix is exactly the intersection of the
date sets of all the series, and for every surviving row every series has
an actual price at the date of that row (no missing cell survives
`dropna`). -/
theorem C4_alignment (pairs : List (Ticker × PriceSeries)) (hne : pairs ≠ []) :
    (∀ d : Date, d ∈ (close_prices pairs).dates ↔ ∀ p ∈ pairs, d ∈ p.2.dates) ∧
      ∀ r ∈ (close_prices pairs).rows, ∀ p ∈ pairs,
        (p.2.priceAt r.1).isSome = true := by
  cases pairs with
  | nil => exact absurd rfl hne
  | cons p0 rest =>
    have hd0 : (close_prices (p0 :: rest)).dates =
        p0.2.dates.filter
          (fun d => (p0 :: rest).all (fun p => decide (d ∈ p.2.dates))) := by
      simp [close_prices, PriceMatrix.dates, List.map_map, Function.comp_def]
    constructor
    · intro d
      rw [hd0, List.mem_filter]
      simp only [List.all_eq_true, decide_eq_true_eq]
      constructor
      · rintro ⟨_, hall⟩
        exact hall
      · intro hall
        exact ⟨hall p0 (List.mem_cons_self _ _), hall⟩
    · intro r hr p hp
      have hrows : (close_prices (p0 :: rest)).rows =
          (p0.2.dates.filter
              (fun d => (p0 :: rest).all (fun pr => decide (d ∈ pr.2.dates)))).map
            (fun d => (d, (p0 :: rest).map (fun pr => (pr.2.priceAt d).getD 0))) := by
        simp [close_prices]
      rw [hrows] at hr
      rcases List.mem_map.mp hr with ⟨d, hdkeep, rfl⟩
      rcases List.mem_filter.mp hdkeep with ⟨_, hall⟩
      rw [List.all_eq_true] at hall
      have hdp : d ∈ p.2.dates := by simpa using hall p hp
      exact priceAt_isSome p.2 d hdp

theorem C4_alignment_witness :
    (∀ d : Date,
        d ∈ (close_prices
            [("A", ⟨[(1, 5), (2, 6)]⟩), ("B", ⟨[(2, 7), (3, 8)]⟩)]).dates ↔
          ∀ p ∈ [("A", (⟨[(1, 5), (2, 6)]⟩ : PriceSeries)),
              ("B", ⟨[(2, 7), (3, 8)]⟩)], d ∈ p.2.dates) ∧
      ∀ r ∈ (close_prices
          [("A", ⟨[(1, 5), (2, 6)]⟩), ("B", ⟨[(2, 7), (3, 8)]⟩)]).rows,
        ∀ p ∈ [("A", (⟨[(1, 5), (2, 6)]⟩ : PriceSeries)),
            ("B", ⟨[(2, 7), (3, 8)]⟩)], (p.2.priceAt r.1).isSome = true :=
  C4_alignment [("A", ⟨[(1, 5), (2, 6)]⟩), ("B", ⟨[(2, 7), (3, 8)]⟩)] (by decide)

end App

namespace App

/-- C5: for a cumulative-growth series built by `cum_ret` from any return
series whose entries all exceed −1 (as every pipeline return does, being a
mean of price ratios minus one), the drawdown at each index is ≤ 0, and it
is 0 exactly when the growth value is a running maximum, i.e. at least as
large as every earlier growth value. -/
theorem C5_drawdown_invariant (rs : List (Date × ℚ))
    (h : ∀ p ∈ rs, -1 < p.2) (t : Nat) (ht : t < rs.length) :
    ((drawdown (cum_ret rs)).getD t dQ).2 ≤ 0 ∧
      (((drawdown (cum_ret rs)).getD t dQ).2 = 0 ↔
        ∀ i, i ≤ t →
          ((cum_ret rs).getD i dQ).2 ≤ ((cum_ret rs).getD t dQ).2) := by
  have hlen : t < (cum_ret rs).length := by
    rw [cum_ret, cum_ret_go_length]; exact ht
  exact drawdown_invariant (cum_ret rs) (cum_ret_pos rs h) t hlen

theorem C5_drawdown_invariant_witness :
    ((drawdown (cum_ret [(1, (1:ℚ)/10), (2, -(1:ℚ)/2)])).getD 1 dQ).2 ≤ 0 ∧
      (((drawdown (cum_ret [(1, (1:ℚ)/10), (2, -(1:ℚ)/2)])).getD 1 dQ).2 = 0 ↔
        ∀ i, i ≤ 1 →
          ((cum_ret [(1, (1:ℚ)/10), (2, -(1:ℚ)/2)]).getD i dQ).2 ≤
            ((cum_ret [(1, (1:ℚ)/10), (2, -(1:ℚ)/2)]).getD 1 dQ).2) :=
  C5_drawdown_invariant [(1, (1:ℚ)/10), (2, -(1:ℚ)/2)] (by norm_num) 1 (by decide)

/-- C6: the cumulative growth at index t is the product of (1 + rᵢ) over the
first t + 1 returns (so at the last index, over the whole series), and —
exactly, since the model is ℚ — the reconstruction `growth[t]/growth[t-1] - 1`
recovers each original return, with `growth[0]/1 - 1` recovering the first
(base value 1 the day before the first return). -/
theorem C6_compounding_round_trip (rs : List (Date × ℚ))
    (hnz : ∀ p ∈ rs, 1 + p.2 ≠ 0) :
    (∀ t, t < rs.length →
        ((cum_ret rs).getD t dQ).2 =
          ((rs.take (t + 1)).map (fun p => 1 + p.2)).prod) ∧
      (rs ≠ [] → ((cum_ret rs).getD 0 dQ).2 / 1 - 1 = (rs.getD 0 dQ).2) ∧
      (∀ t, t + 1 < rs.length →
        ((cum_ret rs).getD (t + 1) dQ).2 / ((cum_ret rs).getD t dQ).2 - 1 =
          (rs.getD (t + 1) dQ).2) := by
  refine ⟨fun t ht => cum_ret_getD_val rs t ht, ?_, ?_⟩
  · intro hne
    cases rs with
    | nil => exact absurd rfl hne
    | cons hd tl =>
      cases hd with | mk d r =>
      simp [cum_ret, cum_ret_go]
  · intro t ht
    have h1 : t < rs.length := Nat.lt_of_succ_lt ht
    rw [cum_ret_getD_val rs t h1, cum_ret_getD_val rs (t + 1) ht]
    have htake : rs.take (t + 1 + 1) = rs.take (t + 1) ++ [rs.getD (t + 1) dQ] := by
      rw [List.getD_eq_getElem rs dQ ht, List.take_succ, List.getElem?_eq_getElem ht]
      rfl
    rw [htake, List.map_append, List.prod_append]
    have hPt : ((rs.take (t + 1)).map (fun p => 1 + p.2)).prod ≠ 0 := by
      apply List.prod_ne_zero
      intro h0
      rcases List.mem_map.mp h0 with ⟨pp, hpp, hpp0⟩
      exact hnz pp (List.take_subset _ _ hpp) hpp0
    simp only [List.map_cons, List.map_nil, List.prod_cons, List.prod_nil, mul_one]
    rw [mul_div_cancel_left₀ _ hPt]
    ring

theorem C6_compounding_round_trip_witness :
    (∀ t, t < ([(1, (1:ℚ)/2), (2, -(1:ℚ)/4)] : List (Date × ℚ)).length →
        ((cum_ret [(1, (1:ℚ)/2), (2, -(1:ℚ)/4)]).getD t dQ).2 =
          ((([(1, (1:ℚ)/2), (2, -(1:ℚ)/4)] : List (Date × ℚ)).take (t + 1)).map
            (fun p => 1 + p.2)).prod) ∧
      (([(1, (1:ℚ)/2), (2, -(1:ℚ)/4)] : List (Date × ℚ)) ≠ [] →
        ((cum_ret [(1, (1:ℚ)/2), (2, -(1:ℚ)/4)]).getD 0 dQ).2 / 1 - 1 =
          (([(1, (1:ℚ)/2), (2, -(1:ℚ)/4)] : List (Date × ℚ)).getD 0 dQ).2) ∧
      (∀ t, t + 1 < ([(1, (1:ℚ)/2), (2, -(1:ℚ)/4)] : List (Date × ℚ)).length →
        ((cum_ret [(1, (1:ℚ)/2), (2, -(1:ℚ)/4)]).getD (t + 1) dQ).2 /
            ((cum_ret [(1, (1:ℚ)/2), (2, -(1:ℚ)/4)]).getD t dQ).2 - 1 =
          (([(1, (1:ℚ)/2), (2, -(1:ℚ)/4)] : List (Date × ℚ)).getD (t + 1) dQ).2) :=
  C6_compounding_round_trip [(1, (1:ℚ)/2), (2, -(1:ℚ)/4)] (by norm_num)

/-- C7 counterexample: the concrete figure in the claim is wrong.  For
per-ticker returns of 0.02, −0.01 and 0.03, the portfolio return computed
by the code (row mean) is
1/75 ≈ 1.3333%, not 0.4667%: it differs from 0.4667% by more than 1/1000,
far beyond any floating tolerance. -/
theorem C7_mean_counterexample :
    ((portfolio_ret [((0:Date), [2/100, -(1:ℚ)/100, 3/100])]).getD 0 dQ).2 ≠
        4667 / 1000000 ∧
      ¬(|((portfolio_ret [((0:Date), [2/100, -(1:ℚ)/100, 3/100])]).getD 0 dQ).2 -
          4667 / 1000000| ≤ 1 / 1000) := by
  have hval : ((portfolio_ret [((0:Date), [2/100, -(1:ℚ)/100, 3/100])]).getD 0
      dQ).2 = 1 / 75 := by
    norm_num [portfolio_ret, dQ]
  rw [hval]
  constructor
  · norm_num
  · rw [abs_of_pos (by norm_num)]
    norm_num

/-- C7 as amended: the portfolio return on each date is the unweighted
arithmetic mean of the row for that date — every ticker contributes its
return divided by N — and for the returns 0.02, −0.01 and 0.03 on one date
it is 1/75 = 1.3333…%. -/
theorem C7_equal_weight_mean (rows : List (Date × List ℚ)) (t : Nat)
    (ht : t < rows.length) :
    ((portfolio_ret rows).getD t dQ).2 =
        ((rows.getD t dRow).2.map
          (fun x => x / ((rows.getD t dRow).2.length : ℚ))).sum ∧
      ((portfolio_ret [((0:Date), [2/100, -(1:ℚ)/100, 3/100])]).getD 0 dQ).2 =
        1 / 75 := by
  constructor
  · rw [portfolio_ret_getD rows t ht, sum_map_div]
  · norm_num [portfolio_ret, dQ]

theorem C7_equal_weight_mean_witness :
    (((portfolio_ret [((0:Date), [(1:ℚ)/2, (1:ℚ)/4])]).getD 0 dQ).2 =
        ((([((0:Date), [(1:ℚ)/2, (1:ℚ)/4])] : List (Date × List ℚ)).getD 0 dRow).2.map
          (fun x => x /
            ((([((0:Date), [(1:ℚ)/2, (1:ℚ)/4])] : List (Date × List ℚ)).getD 0
              dRow).2.length : ℚ))).sum ∧
      ((portfolio_ret [((0:Date), [2/100, -(1:ℚ)/100, 3/100])]).getD 0 dQ).2 =
        1 / 75) :=
  C7_equal_weight_mean [((0:Date), [(1:ℚ)/2, (1:ℚ)/4])] 0 (by decide)

/-- C8: the return matrix drops the first price row (its length is one less
than that of the price matrix), row t holds `(price[t+1] - price[t]) / price[t]`
per column under the date of row t + 1, and for the single price column
[100, 110, 99] the return column is exactly [0.10, −0.10]. -/
theorem C8_pct_change (rows : List (Date × List ℚ)) (t : Nat)
    (ht : t + 1 < rows.length) :
    (pct_rows rows).length = rows.length - 1 ∧
      (pct_rows rows).getD t dRow =
        ((rows.getD (t + 1) dRow).1,
          List.zipWith (fun a b => (b - a) / a)
            (rows.getD t dRow).2 (rows.getD (t + 1) dRow).2) ∧
      pct_rows [((0:Date), [(100:ℚ)]), (1, [110]), (2, [99])] =
        [(1, [(1:ℚ)/10]), (2, [-(1:ℚ)/10])] :=
  ⟨pct_rows_length rows, pct_rows_getD rows t ht,
    by norm_num [pct_rows, pct_go]⟩

theorem C8_pct_change_witness :
    ((pct_rows [((0:Date), [(100:ℚ)]), (1, [110]), (2, [99])]).length =
        ([((0:Date), [(100:ℚ)]), (1, [110]), (2, [99])] :
          List (Date × List ℚ)).length - 1 ∧
      (pct_rows [((0:Date), [(100:ℚ)]), (1, [110]), (2, [99])]).getD 0 dRow =
        ((([((0:Date), [(100:ℚ)]), (1, [110]), (2, [99])] :
            List (Date × List ℚ)).getD 1 dRow).1,
          List.zipWith (fun a b => (b - a) / a)
            (([((0:Date), [(100:ℚ)]), (1, [110]), (2, [99])] :
              List (Date × List ℚ)).getD 0 dRow).2
            (([((0:Date), [(100:ℚ)]), (1, [110]), (2, [99])] :
              List (Date × List ℚ)).getD 1 dRow).2) ∧
      pct_rows [((0:Date), [(100:ℚ)]), (1, [110]), (2, [99])] =
        [(1, [(1:ℚ)/10]), (2, [-(1:ℚ)/10])]) :=
  C8_pct_change [((0:Date), [(100:ℚ)]), (1, [110]), (2, [99])] 0 (by decide)

/-- C9: the contribution ranking pairs each ticker with its final
per-ticker growth value minus one, sorted descending by that value: the
output is sorted (every later value ≤ every earlier one) and is a
permutation of the (ticker, final growth − 1) assignment; for final growths
{A: 1.10, B: 1.25, C: 0.95}, i.e. total returns {A: 0.10, B: 0.25,
C: −0.05}, the output is exactly [B, A, C]. -/
theorem C9_ranking (tickers : List Ticker) (indiv : List (Date × List ℚ))
    (d : Date) (xs : List ℚ) (hlast : indiv.getLast? = some (d, xs)) :
    List.Pairwise (fun a b => b.2 ≤ a.2) (final_perf tickers indiv) ∧
      (final_perf tickers indiv).Perm
        (tickers.zip (xs.map (fun x => x - 1))) ∧
      final_perf ["A", "B", "C"] [((0:Date), [11/10, 5/4, 19/20])] =
        [("B", (1:ℚ)/4), ("A", 1/10), ("C", -(1:ℚ)/20)] := by
  refine ⟨?_, ?_, by norm_num [final_perf, sortDesc, insertDesc]⟩
  · simp only [final_perf, hlast]
    exact sortDesc_pairwise _
  · simp only [final_perf, hlast]
    exact sortDesc_perm _

theorem C9_ranking_witness :
    (List.Pairwise (fun a b => b.2 ≤ a.2)
        (final_perf ["A", "B"] [((0:Date), [(2:ℚ), 3])]) ∧
      (final_perf ["A", "B"] [((0:Date), [(2:ℚ), 3])]).Perm
        (["A", "B"].zip (([(2:ℚ), 3]).map (fun x => x - 1))) ∧
      final_perf ["A", "B", "C"] [((0:Date), [11/10, 5/4, 19/20])] =
        [("B", (1:ℚ)/4), ("A", 1/10), ("C", -(1:ℚ)/20)]) :=
  C9_ranking ["A", "B"] [((0:Date), [(2:ℚ), 3])] 0 [(2:ℚ), 3] (by decide)

/-- C10: the portfolio return series, the cumulative growth series, the
drawdown series and the per-ticker growth table computed from a (non-empty)
filtered return matrix all carry exactly the date index of that return
matrix, and hence all have its length. -/
theorem C10_uniform_index (rows : List (Date × List ℚ)) (n : Nat)
    (_hne : rows ≠ []) :
    (portfolio_ret rows).map Prod.fst = rows.map Prod.fst ∧
      (cum_ret (portfolio_ret rows)).map Prod.fst = rows.map Prod.fst ∧
      (drawdown (cum_ret (portfolio_ret rows))).map Prod.fst =
        rows.map Prod.fst ∧
      (indiv_cum_ret n rows).map Prod.fst = rows.map Prod.fst ∧
      (portfolio_ret rows).length = rows.length ∧
      (cum_ret (portfolio_ret rows)).length = rows.length ∧
      (drawdown (cum_ret (portfolio_ret rows))).length = rows.length ∧
      (indiv_cum_ret n rows).length = rows.length := by
  have h1 : (portfolio_ret rows).map Prod.fst = rows.map Prod.fst := by
    simp [portfolio_ret, List.map_map, Function.comp_def]
  have h2 : (cum_ret (portfolio_ret rows)).map Prod.fst = rows.map Prod.fst := by
    rw [cum_ret, cum_ret_go_map_fst, h1]
  have h3 : (drawdown (cum_ret (portfolio_ret rows))).map Prod.fst =
      rows.map Prod.fst := by
    rw [drawdown, zipWith_keep_fst _ _ _ (by rw [cummax_length]), h2]
  have h4 : (indiv_cum_ret n rows).map Prod.fst = rows.map Prod.fst := by
    rw [indiv_cum_ret, indiv_go_map_fst]
  have hl : ∀ l : List (Date × ℚ), l.map Prod.fst = rows.map Prod.fst →
      l.length = rows.length := by
    intro l hmap
    have := congrArg List.length hmap
    simpa using this
  have hl2 : (indiv_cum_ret n rows).length = rows.length := by
    have := congrArg List.length h4
    simpa using this
  exact ⟨h1, h2, h3, h4, hl _ h1, hl _ h2, hl _ h3, hl2⟩

theorem C10_uniform_index_witness :
    ((portfolio_ret [((1:Date), [(1:ℚ)/2])]).map Prod.fst =
        ([((1:Date), [(1:ℚ)/2])] : List (Date × List ℚ)).map Prod.fst ∧
      (cum_ret (portfolio_ret [((1:Date), [(1:ℚ)/2])])).map Prod.fst =
        ([((1:Date), [(1:ℚ)/2])] : List (Date × List ℚ)).map Prod.fst ∧
      (drawdown (cum_ret (portfolio_ret [((1:Date), [(1:ℚ)/2])]))).map Prod.fst =
        ([((1:Date), [(1:ℚ)/2])] : List (Date × List ℚ)).map Prod.fst ∧
      (indiv_cum_ret 1 [((1:Date), [(1:ℚ)/2])]).map Prod.fst =
        ([((1:Date), [(1:ℚ)/2])] : List (Date × List ℚ)).map Prod.fst ∧
      (portfolio_ret [((1:Date), [(1:ℚ)/2])]).length =
        ([((1:Date), [(1:ℚ)/2])] : List (Date × List ℚ)).length ∧
      (cum_ret (portfolio_ret [((1:Date), [(1:ℚ)/2])])).length =
        ([((1:Date), [(1:ℚ)/2])] : List (Date × List ℚ)).length ∧
      (drawdown (cum_ret (portfolio_ret [((1:Date), [(1:ℚ)/2])]))).length =
        ([((1:Date), [(1:ℚ)/2])] : List (Date × List ℚ)).length ∧
      (indiv_cum_ret 1 [((1:Date), [(1:ℚ)/2])]).length =
        ([((1:Date), [(1:ℚ)/2])] : List (Date × List ℚ)).length) :=
  C10_uniform_index [((1:Date), [(1:ℚ)/2])] 1 (by decide)

end App
